import Mathlib

/-!
Verification development for the consent-manager subsystem of a browser
analytics SDK (src/lib/plugins/consent-manager.js).

The embedding models JavaScript objects as association lists with JS object
semantics (first binding wins on lookup, assignment to an existing key
replaces in place, assignment to a fresh key appends).  Machine dates are
modelled as integers (milliseconds since the epoch, the result of the
external dayjs valueOf); the empty-string sentinel used by the code for
"no expiry" is modelled as the Option none.  Falsiness of a stored expiry
value (the code guards several reads with a bare truthiness test) is
modelled explicitly: the empty value and the number zero are falsy.

External collaborators (local storage, the network transport, dayjs
parsing, UUID generation) are out of scope per the specification; remote
dispatch outcomes enter the model as an explicit list of results, and
date parsing enters as an already-classified input (absent, invalid, or
parsed to an instant).
-/

namespace ConsentManager

/-- JavaScript runtime values as they occur in the consent records this
subsystem builds: undefined, null, strings and numbers. -/
inductive JsVal where
  | undef
  | null
  | str (s : String)
  | num (n : Int)
  deriving DecidableEq, Repr

/-- Field access on a possibly-missing string field: a missing field reads
as undefined. -/
def jsOfOptStr : Option String → JsVal
  | none => .undef
  | some s => .str s

/-- Lookup in a JS object modelled as an association list. -/
def jsFind? {α : Type} : List (String × α) → String → Option α
  | [], _ => none
  | (k, v) :: rest, key => if k = key then some v else jsFind? rest key

/-- Assignment obj[key] = v with JS object semantics: an existing binding is
replaced in place, a fresh key is appended at the end. -/
def jsInsert {α : Type} : List (String × α) → String → α → List (String × α)
  | [], key, v => [(key, v)]
  | (k, w) :: rest, key, v =>
      if k = key then (key, v) :: rest else (k, w) :: jsInsert rest key v

theorem jsFind?_nil {α : Type} (key : String) : jsFind? ([] : List (String × α)) key = none := rfl

theorem jsFind?_jsInsert_self {α : Type} (m : List (String × α)) (key : String) (v : α) :
    jsFind? (jsInsert m key v) key = some v := by
  induction m with
  | nil => simp [jsInsert, jsFind?]
  | cons hd tl ih =>
    by_cases h : hd.1 = key
    · simp [jsInsert, jsFind?, h]
    · simp [jsInsert, jsFind?, h, ih]

theorem jsFind?_jsInsert_ne {α : Type} (m : List (String × α)) (key key' : String) (v : α)
    (h : key' ≠ key) : jsFind? (jsInsert m key v) key' = jsFind? m key' := by
  induction m with
  | nil => simp [jsInsert, jsFind?, Ne.symm h]
  | cons hd tl ih =>
    obtain ⟨k, w⟩ := hd
    by_cases hk : k = key
    · subst hk
      simp [jsInsert, jsFind?, Ne.symm h]
    · simp only [jsInsert, hk, if_false]
      by_cases hk' : k = key'
      · simp [jsFind?, hk']
      · simp [jsFind?, hk', ih]

theorem jsFind?_mem {α : Type} {m : List (String × α)} {key : String} {v : α}
    (h : jsFind? m key = some v) : (key, v) ∈ m := by
  induction m with
  | nil => simp [jsFind?] at h
  | cons hd tl ih =>
    by_cases hk : hd.1 = key
    · simp only [jsFind?, hk, if_pos] at h
      obtain ⟨k, w⟩ := hd
      simp only at hk
      subst hk
      cases h
      exact List.mem_cons_self _ _
    · simp only [jsFind?, hk, if_neg, not_false_iff] at h
      exact List.mem_cons_of_mem _ (ih h)

theorem mem_jsInsert {α : Type} {m : List (String × α)} {key : String} {v : α}
    {x : String × α} (h : x ∈ jsInsert m key v) : x ∈ m ∨ x = (key, v) := by
  induction m with
  | nil =>
    simp [jsInsert] at h
    exact Or.inr h
  | cons hd tl ih =>
    by_cases hk : hd.1 = key
    · simp only [jsInsert, hk, if_pos] at h
      rcases List.mem_cons.mp h with h' | h'
      · exact Or.inr h'
      · exact Or.inl (List.mem_cons_of_mem _ h')
    · simp only [jsInsert, hk, if_neg, not_false_iff] at h
      rcases List.mem_cons.mp h with h' | h'
      · exact Or.inl (h' ▸ List.mem_cons_self _ _)
      · rcases ih h' with h'' | h''
        · exact Or.inl (List.mem_cons_of_mem _ h'')
        · exact Or.inr h''

theorem jsInsert_keys_of_mem {α : Type} (m : List (String × α)) (key : String) (v : α)
    (h : key ∈ m.map Prod.fst) :
    (jsInsert m key v).map Prod.fst = m.map Prod.fst := by
  induction m with
  | nil => simp at h
  | cons hd tl ih =>
    by_cases hk : hd.1 = key
    · simp [jsInsert, hk]
    · simp only [List.map_cons, List.mem_cons] at h
      rcases h with h' | h'
      · exact absurd h'.symm hk
      · simp [jsInsert, hk, ih h']

/-- Modelled from the spec: date parsing is delegated to the external dayjs
utility (an out-of-scope collaborator per the specification).  An
expiry-date input either is absent (missing key, empty string, or another
falsy or non-parsable-typed value, which the code coerces to the empty
string), or is present but fails to parse under the configured date
format, or parses to a comparable instant in milliseconds. -/
inductive ExpiryInput where
  | absent
  | invalid
  | valid (t : Int)
  deriving DecidableEq, Repr

/-- A stored consent record.  Fields that a record may lack at runtime
(because no assignment ever wrote them) are Options; status, identifier
and expiry_date are written by every construction site.  The stored
expiry_date is the empty-string sentinel (none) or a parsed instant in
milliseconds; _updated is the transient change-tracking flag, absent
bindings of which read as false. -/
structure Consent where
  description : Option String := none
  datatype : Option String := none
  status : String
  expiry_date : Option Int := none
  issuer : Option String := none
  identifier : String
  key : Option String := none
  context_id : Option String := none
  _updated : Bool := false
  deriving DecidableEq, Repr

/-- A collection context: metadata plus the per-purpose consents map. -/
structure Context where
  brand : Option String := none
  domain_name : Option String := none
  collection_type : Option String := none
  collection_point_id : Option String := none
  context_id : String
  consents : List (String × Consent) := []
  deriving DecidableEq, Repr

/-- The in-memory preference store: context id mapped to context. -/
abbrev Preferences := List (String × Context)

/-- Ambient configuration threaded through the operations: the configured
issuer label and the current session identifier (this.client.track.uuid). -/
structure Env where
  issuer : String
  uuid : String
  deriving DecidableEq, Repr

/-- Modelled from the spec: the camelCase canonicalization from
src/lib/utils/misc (absent from src/), used for the case- and
format-insensitive purpose match; two purpose keys match exactly when
their camel-case forms coincide, modelled as equality after dropping
separator characters and lowering case. -/
def canonicalPurpose (s : String) : String :=
  String.mk ((s.data.filter (fun c => c != '_' && c != '-' && c != ' ')).map Char.toLower)

/-- Lower-casing of a JS string (String.prototype.toLowerCase on the
ASCII identifiers this subsystem compares). -/
def lowerString (s : String) : String :=
  String.mk (s.data.map Char.toLower)

/-- Status validation (_isValidStatus): a non-empty string whose lower-case
form is one of the four enumerated states. -/
def _isValidStatus (status : Option String) : Bool :=
  match status with
  | none => false
  | some s =>
      if s = "" then false
      else
        let l := lowerString s
        l = "given" || l = "refused" || l = "notgiven" || l = "expired"

/-- Expiry test (_isExpired): status is exactly the string given, the
stored expiry date is truthy (present and nonzero), and it is strictly
before now. -/
def _isExpired (now : Int) (status : String) (expiry_date : Option Int) : Bool :=
  status = "given" &&
    (match expiry_date with
     | none => false
     | some t => t ≠ 0 && t < now)

/-- Normalized outbound record (_getNormalizedConsent), an object whose
expiry value is written under the misspelled key expriry_date and is the
stored expiry when truthy, otherwise null. -/
def _getNormalizedConsent (env : Env) (consentKey : String) (consent : Consent) :
    List (String × JsVal) :=
  [("description", jsOfOptStr consent.description),
   ("datatype", jsOfOptStr consent.datatype),
   ("status", .str consent.status),
   ("expriry_date",
     match consent.expiry_date with
     | some t => if t = 0 then .null else .num t
     | none => .null),
   ("issuer", .str env.issuer),
   ("identifier", .str env.uuid),
   ("purpose", .str consentKey),
   ("context_id", jsOfOptStr consent.context_id)]

/-- Every purpose-consent pair across every context, in store iteration
order (the traversal order of the nested for-in loops). -/
def allConsentEntries (prefs : Preferences) : List (String × Consent) :=
  prefs.foldr (fun ctxE acc => ctxE.2.consents ++ acc) []

/-- The two accumulating arrays built by the saveConsents loop: normalized
records of consents whose _updated flag is set, and of the others, pushed
in traversal order. -/
def consentPartition (env : Env) (prefs : Preferences) :
    List (List (String × JsVal)) × List (List (String × JsVal)) :=
  prefs.foldl
    (fun acc ctxE =>
      ctxE.2.consents.foldl
        (fun acc2 kv =>
          let normalizedConsent := _getNormalizedConsent env kv.1 kv.2
          if kv.2._updated then (acc2.1 ++ [normalizedConsent], acc2.2)
          else (acc2.1, acc2.2 ++ [normalizedConsent]))
        acc)
    ([], [])

/-- The keyed map handed to the success callback (_normalizeConsents): the
map of updated consents when non-empty, otherwise the map of not-updated
consents, each keyed by purpose. -/
def _normalizeConsents (env : Env) (prefs : Preferences) :
    List (String × List (String × JsVal)) :=
  let pair :=
    prefs.foldl
      (fun acc ctxE =>
        ctxE.2.consents.foldl
          (fun acc2 kv =>
            if kv.2._updated then
              (jsInsert acc2.1 kv.1 (_getNormalizedConsent env kv.1 kv.2), acc2.2)
            else
              (acc2.1, jsInsert acc2.2 kv.1 (_getNormalizedConsent env kv.1 kv.2)))
          acc)
      ([], [])
  if pair.1 = [] then pair.2 else pair.1

/-- Flag reset (_resetUpdatedStatus): clear the _updated flag of every
consent in every context. -/
def _resetUpdatedStatus (prefs : Preferences) : Preferences :=
  prefs.map (fun ctxE =>
    (ctxE.1,
     { ctxE.2 with
       consents := ctxE.2.consents.map (fun kv =>
         (kv.1, if kv.2._updated then { kv.2 with _updated := false } else kv.2)) }))

/-- Error payload handed to the failure callback. -/
structure ErrPayload where
  success : Bool
  message : String
  deriving DecidableEq, Repr

/-- Outcome of one remote dispatch, as settled by the external transport. -/
abbrev DispatchOutcome := Except String Unit

def isOkOutcome : DispatchOutcome → Bool
  | .ok _ => true
  | .error _ => false

/-- First rejection reason among the settled dispatch outcomes. -/
def firstErrorMessage : List DispatchOutcome → String
  | [] => ""
  | .ok _ :: rest => firstErrorMessage rest
  | .error e :: _ => e

/-- Observable result of one saveConsents call: the records dispatched to
the remote collector (one per consent), the argument passed to the success
callback when every dispatch resolved, the payload passed to the error
callback when some dispatch rejected, and the preference store once the
trailing flag-reset step has run. -/
structure SaveConsentsResult where
  dispatched : List (List (String × JsVal))
  onSuccess : Option (List (String × List (String × JsVal)))
  onError : Option ErrPayload
  prefsAfter : Preferences
  deriving Repr

/-- The saveConsents operation.  The synchronous local-storage write
(_savePreferences) works on a deep clone and never alters the in-memory
store, so it has no footprint in this model; the dispatch outcomes are
supplied by the external transport.  The success callback argument is
computed from the store before the flag reset runs (the reset lives in a
later finally continuation), and the reset runs regardless of outcome,
but only when the updated partition was non-empty. -/
def saveConsents (env : Env) (prefs : Preferences) (outcomes : List DispatchOutcome) :
    SaveConsentsResult :=
  let p := consentPartition env prefs
  let updatedConsents := p.1
  let notUpdatedConsents := p.2
  let dispatched := if updatedConsents.isEmpty then notUpdatedConsents else updatedConsents
  let allOk := outcomes.all isOkOutcome
  { dispatched := dispatched
    onSuccess := if allOk then some (_normalizeConsents env prefs) else none
    onError :=
      if allOk then none
      else some { success := false, message := firstErrorMessage outcomes }
    prefsAfter := if updatedConsents.isEmpty then prefs else _resetUpdatedStatus prefs }

/-- Caller-supplied fields of one consent entry, as accepted by addConsents
and updateConsent; a none field is a key the caller did not supply. -/
structure ConsentInput where
  description : Option String := none
  datatype : Option String := none
  status : Option String := none
  expiry_date : ExpiryInput := .absent
  context_id : Option String := none
  deriving DecidableEq, Repr

/-- One iteration of the addConsents loop.  The validated status is used
only when the record is new; the merge branch assigns the raw input over
the existing record.  The parsed expiry date and the configured issuer are
written unconditionally afterwards.  Writing into the consents map of a
caller-supplied context id that is not in the store throws (TypeError on
reading .consents of undefined). -/
def addConsentOne (env : Env) (defaultContext : Context) (prefs : Preferences)
    (key : String) (fields : ConsentInput) : Except String Preferences :=
  let status :=
    match fields.status with
    | some s => if _isValidStatus (some s) then s else "notgiven"
    | none => "notgiven"
  let expiryDate : Option Int :=
    match fields.expiry_date with
    | .valid t => some t
    | _ => none
  let useDefault : Bool :=
    match fields.context_id with
    | none => true
    | some cid => cid = ""
  let contextId := if useDefault then defaultContext.context_id else fields.context_id.getD ""
  let prefs1 :=
    if useDefault && (jsFind? prefs defaultContext.context_id).isNone then
      jsInsert prefs defaultContext.context_id defaultContext
    else prefs
  let currentContext := jsFind? prefs1 contextId
  let current : Option Consent := currentContext.bind (fun ctx => jsFind? ctx.consents key)
  let augmentedConsent : Consent :=
    match current with
    | some cur =>
      { description := fields.description <|> cur.description
        datatype := fields.datatype <|> cur.datatype
        status := (fields.status.getD cur.status)
        expiry_date := expiryDate
        issuer := some env.issuer
        identifier := cur.identifier
        key := cur.key
        context_id := fields.context_id <|> cur.context_id
        _updated := cur._updated }
    | none =>
      { description := fields.description
        datatype := fields.datatype
        status := status
        expiry_date := expiryDate
        issuer := some env.issuer
        identifier := env.uuid
        key := some (canonicalPurpose key)
        context_id := some contextId
        _updated := false }
  match jsFind? prefs1 contextId with
  | none => .error "TypeError"
  | some ctx =>
      .ok (jsInsert prefs1 contextId
        { ctx with consents := jsInsert ctx.consents key augmentedConsent })

/-- The addConsents operation: the loop over the entries of the input
object (an empty input is a no-op, and a thrown TypeError aborts the
remaining iterations). -/
def addConsents (env : Env) (defaultContext : Context) (prefs : Preferences)
    (consents : List (String × ConsentInput)) : Except String Preferences :=
  match consents with
  | [] => .ok prefs
  | kv :: rest =>
    match addConsentOne env defaultContext prefs kv.1 kv.2 with
    | .ok p => addConsents env defaultContext p rest
    | .error e => .error e

/-- Purpose-match test of the updateConsent loop: some stored purpose key
whose camel-case form equals that of the supplied purpose. -/
def hasPurposeMatch (consents : List (String × Consent)) (p : String) : Bool :=
  consents.any (fun kv => canonicalPurpose kv.1 = canonicalPurpose p)

/-- The updateConsent operation.  The guard treats a missing context and an
empty input object as no-ops.  The loop body only ever reads and writes
the consents map at the supplied purpose key, so a camel-case match whose
stored key differs from the supplied key operates on a missing record:
the status and expiry fallbacks then read a field of undefined and throw,
and when both incoming values are valid the record is written under the
supplied key as a fresh entry. -/
def updateConsent (env : Env) (prefs : Preferences) (contextId : String)
    (consent : List (String × ConsentInput)) : Except String Preferences :=
  match jsFind? prefs contextId with
  | none => .ok prefs
  | some ctx =>
    match consent with
    | [] => .ok prefs
    | (consentPurpose, fields) :: _ =>
      if hasPurposeMatch ctx.consents consentPurpose then
        let cur? := jsFind? ctx.consents consentPurpose
        let status0 := fields.status.getD ""
        let statusE : Except String String :=
          if _isValidStatus (some status0) then .ok status0
          else
            match cur? with
            | some cur => .ok cur.status
            | none => .error "TypeError"
        let expiryE : Except String (Option Int) :=
          match fields.expiry_date with
          | .valid t => .ok (some t)
          | _ =>
            match cur? with
            | some cur => .ok cur.expiry_date
            | none => .error "TypeError"
        match statusE, expiryE with
        | .ok status, .ok expiryDate =>
          let updatedRec : Consent :=
            { description := fields.description <|> (cur?.bind (fun c => c.description))
              datatype := fields.datatype <|> (cur?.bind (fun c => c.datatype))
              status := status
              expiry_date := expiryDate
              issuer := cur?.bind (fun c => c.issuer)
              identifier := env.uuid
              key := cur?.bind (fun c => c.key)
              context_id := fields.context_id <|> (cur?.bind (fun c => c.context_id))
              _updated := true }
          .ok (jsInsert prefs contextId
            { ctx with consents := jsInsert ctx.consents consentPurpose updatedRec })
        | .error e, _ => .error e
        | _, .error e => .error e
      else .ok prefs

/-- Caller-supplied fields of an updateContext call; a JS object may carry
a consents key of its own alongside the metadata fields. -/
structure ContextInput where
  brand : Option String := none
  domain_name : Option String := none
  collection_type : Option String := none
  collection_point_id : Option String := none
  context_id : Option String := none
  consents : Option (List (String × Consent)) := none
  deriving DecidableEq, Repr

/-- Emptiness of an updateContext input: no own keys. -/
def ctxInputIsEmpty (values : ContextInput) : Bool :=
  values.brand.isNone && values.domain_name.isNone && values.collection_type.isNone &&
    values.collection_point_id.isNone && values.context_id.isNone && values.consents.isNone

/-- The updateContext operation: no-op when the context is missing or the
input is empty; otherwise the input is assigned over the metadata (taken
from the context with its consents key omitted) and the result assigned
over the full context, so an input consents key ends up replacing the
stored consents map. -/
def updateContext (prefs : Preferences) (contextId : String) (values : ContextInput) :
    Preferences :=
  match jsFind? prefs contextId with
  | none => prefs
  | some context =>
    if ctxInputIsEmpty values then prefs
    else
      let merged : Context :=
        { brand := values.brand <|> context.brand
          domain_name := values.domain_name <|> context.domain_name
          collection_type := values.collection_type <|> context.collection_type
          collection_point_id := values.collection_point_id <|> context.collection_point_id
          context_id := values.context_id.getD context.context_id
          consents := values.consents.getD context.consents }
      jsInsert prefs contextId merged

/-- The getConsentExpiryDate operation: falsy arguments return undefined;
otherwise the consents map of the looked-up context is read, which throws
when the context id has no entry in the store; a found record yields its
truthy expiry value, otherwise null. -/
def getConsentExpiryDate (prefs : Preferences) (contextId consentPurpose : String) :
    Except String JsVal :=
  if contextId = "" || consentPurpose = "" then .ok .undef
  else
    match jsFind? prefs contextId with
    | none => .error "TypeError"
    | some ctx =>
      .ok
        (match jsFind? ctx.consents consentPurpose with
         | none => .null
         | some c =>
           match c.expiry_date with
           | some t => if t = 0 then .null else .num t
           | none => .null)

/-- One row of the getConsents projection: the context metadata assigned
with the consent view fields. -/
structure GcView where
  brand : Option String
  domain_name : Option String
  collection_type : Option String
  collection_point_id : Option String
  context_id : String
  status : String
  datatype : String
  description : String
  expiry_date : Option Int
  identifier : String
  purpose : String
  deriving DecidableEq, Repr

/-- The row getConsents builds for one stored consent: falsy datatype,
description and expiry values normalize to their empty defaults. -/
def consentView (env : Env) (ctx : Context) (k : String) (c : Consent) : GcView :=
  { brand := ctx.brand
    domain_name := ctx.domain_name
    collection_type := ctx.collection_type
    collection_point_id := ctx.collection_point_id
    context_id := ctx.context_id
    status := c.status
    datatype := c.datatype.getD ""
    description := c.description.getD ""
    expiry_date :=
      match c.expiry_date with
      | some t => if t = 0 then none else some t
      | none => none
    identifier := env.uuid
    purpose := k }

/-- The getConsents operation (the storage fallback for an empty in-memory
store re-reads the same data the store was seeded from, so the projection
is over the store). -/
def getConsents (env : Env) (prefs : Preferences) : List GcView :=
  prefs.foldl
    (fun acc ctxE => acc ++ ctxE.2.consents.map (fun kv => consentView env ctxE.2 kv.1 kv.2))
    []

/-- The getExpiredConsents operation: rows whose status is the string
expired, or which pass the expiry test at query time. -/
def getExpiredConsents (env : Env) (now : Int) (prefs : Preferences) : List GcView :=
  (getConsents env prefs).filter
    (fun v => v.status = "expired" || _isExpired now v.status v.expiry_date)

/-- One step of the expiry reconciler: a consent passing the expiry test
has its status flipped to expired and its _updated flag set. -/
def expireConsent (now : Int) (c : Consent) : Consent :=
  if _isExpired now c.status c.expiry_date then
    { c with status := "expired", _updated := true }
  else c

/-- The reconciler loop (_updateExpiredConsents): every consent in every
context is reconciled in place, and the boolean records whether any
consent passed the expiry test (the shouldSaveConsents flag; an empty
store skips the loop, which coincides with the empty map and any). -/
def _updateExpiredConsents (now : Int) (prefs : Preferences) : Preferences × Bool :=
  (prefs.map (fun ctxE =>
     (ctxE.1,
      { ctxE.2 with
        consents := ctxE.2.consents.map (fun kv => (kv.1, expireConsent now kv.2)) })),
   prefs.any (fun ctxE =>
     ctxE.2.consents.any (fun kv => _isExpired now kv.2.status kv.2.expiry_date)))

/-- Observable result of configure: the store once the reconciler has run
(the state the synchronous part of configure leaves behind), whether the
silent persist-and-sync fired, the records it dispatched, the snapshot
handed to the expired-consents callback (built once, before any pending
sync continuation runs), and the store after the sync continuations have
settled. -/
structure ConfigureResult where
  prefs : Preferences
  didSync : Bool
  dispatched : List (List (String × JsVal))
  expiredCallbackArg : List GcView
  prefsSettled : Preferences
  deriving Repr

/-- The configure-time sequence relevant to the reconciler: preferences are
seeded from storage (the already-deserialized store is the parameter),
the reconciler runs synchronously, a silent saveConsents fires when
anything changed (its callbacks are no-ops, so its outcomes are
discarded), and the expired-consents callback receives the
getExpiredConsents snapshot exactly once. -/
def configure (env : Env) (now : Int) (storedPrefs : Preferences) : ConfigureResult :=
  let r := _updateExpiredConsents now storedPrefs
  let prefs1 := r.1
  let shouldSave := r.2
  let save := saveConsents env prefs1 []
  { prefs := prefs1
    didSync := shouldSave
    dispatched := if shouldSave then save.dispatched else []
    expiredCallbackArg := getExpiredConsents env now prefs1
    prefsSettled := if shouldSave then save.prefsAfter else prefs1 }

/-! Lemmas about the sync-engine partition. -/

theorem consentPartition_spec (env : Env) (prefs : Preferences) :
    consentPartition env prefs =
      (((allConsentEntries prefs).filter (fun kv => kv.2._updated)).map
         (fun kv => _getNormalizedConsent env kv.1 kv.2),
       ((allConsentEntries prefs).filter (fun kv => !kv.2._updated)).map
         (fun kv => _getNormalizedConsent env kv.1 kv.2)) := by
  have inner : ∀ (l : List (String × Consent))
      (acc : List (List (String × JsVal)) × List (List (String × JsVal))),
      l.foldl
        (fun acc2 kv =>
          let normalizedConsent := _getNormalizedConsent env kv.1 kv.2
          if kv.2._updated then (acc2.1 ++ [normalizedConsent], acc2.2)
          else (acc2.1, acc2.2 ++ [normalizedConsent]))
        acc
      = (acc.1 ++ (l.filter (fun kv => kv.2._updated)).map
           (fun kv => _getNormalizedConsent env kv.1 kv.2),
         acc.2 ++ (l.filter (fun kv => !kv.2._updated)).map
           (fun kv => _getNormalizedConsent env kv.1 kv.2)) := by
    intro l
    induction l with
    | nil => intro acc; simp
    | cons hd tl ih =>
      intro acc
      cases h : hd.2._updated with
      | true => simp [h, ih]
      | false => simp [h, ih]
  have outer : ∀ (ps : Preferences)
      (acc : List (List (String × JsVal)) × List (List (String × JsVal))),
      ps.foldl
        (fun acc ctxE =>
          ctxE.2.consents.foldl
            (fun acc2 kv =>
              let normalizedConsent := _getNormalizedConsent env kv.1 kv.2
              if kv.2._updated then (acc2.1 ++ [normalizedConsent], acc2.2)
              else (acc2.1, acc2.2 ++ [normalizedConsent]))
            acc)
        acc
      = (acc.1 ++ ((allConsentEntries ps).filter (fun kv => kv.2._updated)).map
           (fun kv => _getNormalizedConsent env kv.1 kv.2),
         acc.2 ++ ((allConsentEntries ps).filter (fun kv => !kv.2._updated)).map
           (fun kv => _getNormalizedConsent env kv.1 kv.2)) := by
    intro ps
    induction ps with
    | nil => intro acc; simp [allConsentEntries]
    | cons hd tl ih =>
      intro acc
      simp only [List.foldl_cons]
      rw [inner, ih]
      simp [allConsentEntries, List.filter_append, List.map_append, List.append_assoc]
  have h := outer prefs ([], [])
  simpa [consentPartition, allConsentEntries] using h

theorem allConsentEntries_filter_eq_self_of_none_updated (prefs : Preferences)
    (h : ∀ e ∈ allConsentEntries prefs, e.2._updated = false) :
    (allConsentEntries prefs).filter (fun kv => !kv.2._updated) = allConsentEntries prefs := by
  apply List.filter_eq_self.mpr
  intro a ha
  simp [h a ha]

theorem dispatched_eq_updated_of_some_updated (env : Env) (prefs : Preferences)
    (outcomes : List DispatchOutcome)
    (h : ∃ e ∈ allConsentEntries prefs, e.2._updated = true) :
    (saveConsents env prefs outcomes).dispatched =
      ((allConsentEntries prefs).filter (fun kv => kv.2._updated)).map
        (fun kv => _getNormalizedConsent env kv.1 kv.2) := by
  obtain ⟨e, he, hu⟩ := h
  have hne : ((allConsentEntries prefs).filter (fun kv => kv.2._updated)).map
      (fun kv => _getNormalizedConsent env kv.1 kv.2) ≠ [] := by
    simp only [ne_eq, List.map_eq_nil_iff, List.filter_eq_nil_iff]
    push_neg
    exact ⟨e, he, by simp [hu]⟩
  simp only [saveConsents, consentPartition_spec]
  simp only [List.isEmpty_iff]
  rw [if_neg hne]

theorem dispatched_eq_all_of_none_updated (env : Env) (prefs : Preferences)
    (outcomes : List DispatchOutcome)
    (h : ∀ e ∈ allConsentEntries prefs, e.2._updated = false) :
    (saveConsents env prefs outcomes).dispatched =
      (allConsentEntries prefs).map (fun kv => _getNormalizedConsent env kv.1 kv.2) := by
  have hempty : (allConsentEntries prefs).filter (fun kv => kv.2._updated) = [] := by
    apply List.filter_eq_nil_iff.mpr
    intro a ha
    simp [h a ha]
  simp only [saveConsents, consentPartition_spec]
  simp only [hempty, List.map_nil, List.isEmpty_nil, if_pos]
  rw [allConsentEntries_filter_eq_self_of_none_updated prefs h]

theorem prefsAfter_eq_reset_of_some_updated (env : Env) (prefs : Preferences)
    (outcomes : List DispatchOutcome)
    (h : ∃ e ∈ allConsentEntries prefs, e.2._updated = true) :
    (saveConsents env prefs outcomes).prefsAfter = _resetUpdatedStatus prefs := by
  obtain ⟨e, he, hu⟩ := h
  have hne : ((allConsentEntries prefs).filter (fun kv => kv.2._updated)).map
      (fun kv => _getNormalizedConsent env kv.1 kv.2) ≠ [] := by
    simp only [ne_eq, List.map_eq_nil_iff, List.filter_eq_nil_iff]
    push_neg
    exact ⟨e, he, by simp [hu]⟩
  simp only [saveConsents, consentPartition_spec]
  simp only [List.isEmpty_iff]
  rw [if_neg hne]

theorem allConsentEntries_reset (prefs : Preferences) :
    ∀ e ∈ allConsentEntries (_resetUpdatedStatus prefs), e.2._updated = false := by
  induction prefs with
  | nil =>
    intro e he
    simp [_resetUpdatedStatus, allConsentEntries] at he
  | cons hd tl ih =>
    intro e he
    have hsplit : allConsentEntries (_resetUpdatedStatus (hd :: tl)) =
        hd.2.consents.map (fun kv =>
          (kv.1, if kv.2._updated then { kv.2 with _updated := false } else kv.2)) ++
          allConsentEntries (_resetUpdatedStatus tl) := by
      simp [_resetUpdatedStatus, allConsentEntries]
    rw [hsplit] at he
    rcases List.mem_append.mp he with h' | h'
    · obtain ⟨kv, _, hkv⟩ := List.mem_map.mp h'
      cases hu : kv.2._updated with
      | true => rw [← hkv]; simp [hu]
      | false => rw [← hkv]; simp [hu]
    · exact ih e h'

/-- C1: for every saveConsents call, when at least one consent across all
contexts has its _updated flag set, the dispatched records are exactly the
normalized forms of the flagged consents (one outbound record per flagged
consent, in store order, and no unflagged consent is dispatched); when no
consent is flagged, every consent is dispatched.  The dispatched list is
always exactly one of the two partitions, never a mix of both. -/
theorem saveConsents_dispatches_one_partition (env : Env) (prefs : Preferences)
    (outcomes : List DispatchOutcome) :
    ((∃ e ∈ allConsentEntries prefs, e.2._updated = true) →
      (saveConsents env prefs outcomes).dispatched =
        ((allConsentEntries prefs).filter (fun kv => kv.2._updated)).map
          (fun kv => _getNormalizedConsent env kv.1 kv.2))
    ∧ ((∀ e ∈ allConsentEntries prefs, e.2._updated = false) →
      (saveConsents env prefs outcomes).dispatched =
        (allConsentEntries prefs).map (fun kv => _getNormalizedConsent env kv.1 kv.2)) :=
  ⟨dispatched_eq_updated_of_some_updated env prefs outcomes,
   dispatched_eq_all_of_none_updated env prefs outcomes⟩

def envW : Env := { issuer := "treasuredata", uuid := "uuid-1" }

def cUpd : Consent :=
  { status := "given", identifier := "uuid-1", _updated := true, context_id := some "c1" }

def cStale : Consent :=
  { status := "refused", identifier := "uuid-1", context_id := some "c1" }

def prefsW : Preferences :=
  [("c1", { context_id := "c1", consents := [("p1", cUpd), ("p2", cStale)] })]

theorem saveConsents_dispatches_one_partition_witness :
    (saveConsents envW prefsW []).dispatched =
      ((allConsentEntries prefsW).filter (fun kv => kv.2._updated)).map
        (fun kv => _getNormalizedConsent envW kv.1 kv.2) :=
  (saveConsents_dispatches_one_partition envW prefsW []).1
    ⟨("p1", cUpd), by decide, rfl⟩

/-- C2: for every saveConsents call whose changed partition was non-empty,
once the dispatches have settled — for any combination of dispatch
outcomes, success or failure — every consent in every context carries a
cleared _updated flag, and a saveConsents retried on the resulting store
with no new updates dispatches the full unchanged set (every consent),
rather than re-sending the delta. -/
theorem saveConsents_resets_flags_even_on_failure (env : Env) (prefs : Preferences)
    (outcomes outcomes2 : List DispatchOutcome)
    (h : ∃ e ∈ allConsentEntries prefs, e.2._updated = true) :
    (∀ e ∈ allConsentEntries ((saveConsents env prefs outcomes).prefsAfter),
        e.2._updated = false)
    ∧ (saveConsents env ((saveConsents env prefs outcomes).prefsAfter) outcomes2).dispatched =
        (allConsentEntries ((saveConsents env prefs outcomes).prefsAfter)).map
          (fun kv => _getNormalizedConsent env kv.1 kv.2) := by
  have hafter := prefsAfter_eq_reset_of_some_updated env prefs outcomes h
  rw [hafter]
  exact ⟨allConsentEntries_reset prefs,
    dispatched_eq_all_of_none_updated env _ outcomes2 (allConsentEntries_reset prefs)⟩

theorem saveConsents_resets_flags_even_on_failure_witness :
    (∀ e ∈ allConsentEntries ((saveConsents envW prefsW [Except.error "Timeout"]).prefsAfter),
        e.2._updated = false)
    ∧ (saveConsents envW ((saveConsents envW prefsW [Except.error "Timeout"]).prefsAfter)
          []).dispatched =
        (allConsentEntries ((saveConsents envW prefsW [Except.error "Timeout"]).prefsAfter)).map
          (fun kv => _getNormalizedConsent envW kv.1 kv.2) :=
  saveConsents_resets_flags_even_on_failure envW prefsW [Except.error "Timeout"] []
    ⟨("p1", cUpd), by decide, rfl⟩

/-- C8: updateConsent on a context id with no entry in the preference
store, and updateConsent with an empty consent argument, both leave the
entire preference store exactly as it was (and raise nothing). -/
theorem updateConsent_noop_on_missing_context_or_empty_input (env : Env) (prefs : Preferences)
    (contextId : String) (consent : List (String × ConsentInput))
    (h : jsFind? prefs contextId = none ∨ consent = []) :
    updateConsent env prefs contextId consent = .ok prefs := by
  rcases h with h | h
  · simp [updateConsent, h]
  · subst h
    cases hfind : jsFind? prefs contextId with
    | none => simp [updateConsent, hfind]
    | some ctx => simp [updateConsent, hfind]

theorem updateConsent_noop_on_missing_context_or_empty_input_witness :
    updateConsent envW [] "c-missing" [("marketing", { status := some "refused" })] =
      .ok ([] : Preferences) :=
  updateConsent_noop_on_missing_context_or_empty_input envW [] "c-missing"
    [("marketing", { status := some "refused" })] (Or.inl rfl)

def cP : Consent := { status := "given", identifier := "uuid-1", context_id := some "c1" }

def prefsC7 : Preferences := [("c1", { context_id := "c1", consents := [("p", cP)] })]

/-- C7 counterexample: an updateContext input that itself carries a
consents key replaces the stored consents sub-map instead of leaving it
untouched — here a context holding one consent loses it to the input's
empty consents object. -/
theorem updateContext_consents_key_counterexample :
    (jsFind? prefsC7 "c1").map Context.consents = some [("p", cP)]
    ∧ (jsFind? (updateContext prefsC7 "c1" { consents := some [] }) "c1").map
        Context.consents = some [] := by
  constructor <;> rfl

/-- C7 amended: updateContext is a no-op when the context does not exist
or the input is empty; otherwise the input fields are shallow-merged over
the existing context, and the consents sub-map is preserved exactly for
every input that does not itself contain a consents key (an input consents
key replaces the sub-map). -/
theorem updateContext_merges_and_preserves_consents (prefs : Preferences)
    (contextId : String) (values : ContextInput) :
    (jsFind? prefs contextId = none → updateContext prefs contextId values = prefs)
    ∧ (ctxInputIsEmpty values = true → updateContext prefs contextId values = prefs)
    ∧ (∀ ctx, jsFind? prefs contextId = some ctx → ctxInputIsEmpty values = false →
        values.consents = none →
        ∃ ctx2, jsFind? (updateContext prefs contextId values) contextId = some ctx2 ∧
          ctx2.consents = ctx.consents ∧
          ctx2.brand = (values.brand <|> ctx.brand) ∧
          ctx2.domain_name = (values.domain_name <|> ctx.domain_name) ∧
          ctx2.collection_type = (values.collection_type <|> ctx.collection_type) ∧
          ctx2.collection_point_id = (values.collection_point_id <|> ctx.collection_point_id) ∧
          ctx2.context_id = values.context_id.getD ctx.context_id) := by
  refine ⟨fun h => by simp [updateContext, h], fun h => ?_, fun ctx hfind hne hcons => ?_⟩
  · cases hfind : jsFind? prefs contextId with
    | none => simp [updateContext, hfind]
    | some ctx => simp [updateContext, hfind, h]
  · refine ⟨{ brand := values.brand <|> ctx.brand
              domain_name := values.domain_name <|> ctx.domain_name
              collection_type := values.collection_type <|> ctx.collection_type
              collection_point_id := values.collection_point_id <|> ctx.collection_point_id
              context_id := values.context_id.getD ctx.context_id
              consents := values.consents.getD ctx.consents }, ?_, ?_, rfl, rfl, rfl, rfl, rfl⟩
    · simp only [updateContext, hfind, hne, if_false]
      exact jsFind?_jsInsert_self prefs contextId _
    · simp [hcons]

def prefsC7b : Preferences :=
  [("c1", { context_id := "c1", brand := some "Old Brand", consents := [("p", cP)] })]

theorem updateContext_merges_and_preserves_consents_witness :
    ∃ ctx2, jsFind? (updateContext prefsC7b "c1" { brand := some "New Brand" }) "c1" =
        some ctx2 ∧
      ctx2.consents = [("p", cP)] ∧
      ctx2.brand = (some "New Brand" <|> some "Old Brand") ∧
      ctx2.domain_name = (none <|> none) ∧
      ctx2.collection_type = (none <|> none) ∧
      ctx2.collection_point_id = (none <|> none) ∧
      ctx2.context_id = (Option.getD none "c1") :=
  (updateContext_merges_and_preserves_consents prefsC7b "c1"
      { brand := some "New Brand" }).2.2
    { context_id := "c1", brand := some "Old Brand", consents := [("p", cP)] } rfl rfl rfl

/-- C6 (code defect): getConsentExpiryDate called with a context id that
has no entry in the preference store reads the consents field of an
undefined lookup and throws a TypeError to the caller, instead of failing
through the callback discipline the specification promises for every
public operation. -/
theorem getConsentExpiryDate_throws_on_missing_context :
    getConsentExpiryDate [] "c-missing" "analytics" = .error "TypeError" := rfl

def defaultCtxW : Context := { context_id := "default-ctx" }

def cGivenC3 : Consent :=
  { status := "given", identifier := "uuid-1", context_id := some "c1",
    issuer := some "treasuredata", key := some "marketing" }

def prefsC3 : Preferences :=
  [("c1", { context_id := "c1", consents := [("marketing", cGivenC3)] })]

/-- C3 (code defect): the validated status computed at the top of the
addConsents loop is only used when the record is new; the merge branch
assigns the raw input over the existing record, so a status string outside
the enumeration is stored verbatim instead of defaulting to notgiven —
here a consent holding the valid status given ends up holding the invalid
string bogus. -/
theorem addConsents_merge_stores_invalid_status :
    _isValidStatus (some "bogus") = false
    ∧ ∃ prefs2,
        addConsents envW defaultCtxW prefsC3
            [("marketing", { status := some "bogus", context_id := some "c1" })] =
          .ok prefs2 ∧
        ((jsFind? prefs2 "c1").bind (fun ctx => jsFind? ctx.consents "marketing")).map
          Consent.status = some "bogus" := by
  refine ⟨by decide, _, rfl, ?_⟩
  rfl

def cC4 : Consent :=
  { description := some "old desc", datatype := some "old type", status := "given",
    expiry_date := some 100, issuer := some "treasuredata", identifier := "uuid-1",
    key := some "marketing", context_id := some "c1" }

def prefsC4 : Preferences :=
  [("c1", { context_id := "c1", consents := [("marketing", cC4)] })]

/-- C4 counterexample: an addConsents merge whose input does not supply an
expiry_date does not keep the previously stored expiry — the code
recomputes the expiry from the input on every iteration and writes it
unconditionally, so the stored instant 100 is replaced by the empty
value. -/
theorem addConsents_merge_drops_unsupplied_expiry :
    ((jsFind? prefsC4 "c1").bind (fun ctx => jsFind? ctx.consents "marketing")).map
        Consent.expiry_date = some (some 100)
    ∧ ∃ prefs2,
        addConsents envW defaultCtxW prefsC4
            [("marketing", { description := some "new desc", context_id := some "c1" })] =
          .ok prefs2 ∧
        ((jsFind? prefs2 "c1").bind (fun ctx => jsFind? ctx.consents "marketing")).map
          Consent.expiry_date = some none := by
  refine ⟨rfl, _, rfl, ?_⟩
  rfl

/-- The record the addConsents merge branch produces, written out once so
proofs can name it: raw input fields assigned over the current record,
with the parsed expiry and the configured issuer written afterwards. -/
def mergedConsent (env : Env) (fields : ConsentInput) (cur : Consent) : Consent :=
  { description := fields.description <|> cur.description
    datatype := fields.datatype <|> cur.datatype
    status := fields.status.getD cur.status
    expiry_date :=
      match fields.expiry_date with
      | .valid t => some t
      | _ => none
    issuer := some env.issuer
    identifier := cur.identifier
    key := cur.key
    context_id := fields.context_id <|> cur.context_id
    _updated := cur._updated }

/-- C4 amended: when addConsents merges over an existing consent in the
resolved context, every field not supplied in the input keeps its previous
value and every supplied field overwrites the old one, except that the
expiry_date is always recomputed from the input (absent or invalid expiry
input clears the stored expiry to empty) and the issuer is always reset to
the configured issuer. -/
theorem addConsents_merge_preserves_unsupplied_fields (env : Env) (defaultContext : Context)
    (prefs : Preferences) (key : String) (fields : ConsentInput) (cid : String)
    (ctx : Context) (cur : Consent)
    (hcid : fields.context_id = some cid) (hne : cid ≠ "")
    (hctx : jsFind? prefs cid = some ctx)
    (hcur : jsFind? ctx.consents key = some cur) :
    ∃ prefs2, addConsents env defaultContext prefs [(key, fields)] = .ok prefs2 ∧
      ∃ ctx2, jsFind? prefs2 cid = some ctx2 ∧
      ∃ c2, jsFind? ctx2.consents key = some c2 ∧
        c2.description = (fields.description <|> cur.description) ∧
        c2.datatype = (fields.datatype <|> cur.datatype) ∧
        c2.status = fields.status.getD cur.status ∧
        c2.identifier = cur.identifier ∧
        c2.key = cur.key ∧
        c2.context_id = (fields.context_id <|> cur.context_id) ∧
        c2._updated = cur._updated ∧
        c2.issuer = some env.issuer ∧
        c2.expiry_date =
          (match fields.expiry_date with
           | .valid t => some t
           | _ => none) := by
  have hone : addConsentOne env defaultContext prefs key fields =
      .ok (jsInsert prefs cid
        { ctx with consents := jsInsert ctx.consents key (mergedConsent env fields cur) }) := by
    simp only [addConsentOne, hcid, hne, hctx, hcur]
    simp [hne, Option.getD, mergedConsent, hctx, hcur, hcid]
  refine ⟨jsInsert prefs cid
      { ctx with consents := jsInsert ctx.consents key (mergedConsent env fields cur) }, ?_,
    { ctx with consents := jsInsert ctx.consents key (mergedConsent env fields cur) },
    jsFind?_jsInsert_self _ _ _, mergedConsent env fields cur, jsFind?_jsInsert_self _ _ _,
    rfl, rfl, rfl, rfl, rfl, rfl, rfl, rfl, rfl⟩
  simp [addConsents, hone]

theorem addConsents_merge_preserves_unsupplied_fields_witness :
    ∃ prefs2,
      addConsents envW defaultCtxW prefsC4
          [("marketing", { status := some "refused", context_id := some "c1" })] =
        .ok prefs2 ∧
      ∃ ctx2, jsFind? prefs2 "c1" = some ctx2 ∧
      ∃ c2, jsFind? ctx2.consents "marketing" = some c2 ∧
        c2.description = (none <|> some "old desc") ∧
        c2.datatype = (none <|> some "old type") ∧
        c2.status = Option.getD (some "refused") "given" ∧
        c2.identifier = "uuid-1" ∧
        c2.key = some "marketing" ∧
        c2.context_id = (some "c1" <|> some "c1") ∧
        c2._updated = false ∧
        c2.issuer = some "treasuredata" ∧
        c2.expiry_date =
          (match ExpiryInput.absent with
           | .valid t => some t
           | _ => none) :=
  addConsents_merge_preserves_unsupplied_fields envW defaultCtxW prefsC4 "marketing"
    { status := some "refused", context_id := some "c1" } "c1" _ cC4
    rfl (by decide) rfl rfl

theorem hasPurposeMatch_of_find? (consents : List (String × Consent)) (p : String)
    (c : Consent) (h : jsFind? consents p = some c) : hasPurposeMatch consents p = true := by
  have hmem := jsFind?_mem h
  simp only [hasPurposeMatch, List.any_eq_true]
  exact ⟨(p, c), hmem, by simp⟩

/-- The record the updateConsent loop writes when the supplied purpose key
itself holds a record: unspecified fields carried over, incoming status
and expiry validated with fallback to the current values, identifier
refreshed, _updated set. -/
def updatedConsentRec (env : Env) (fields : ConsentInput) (cur : Consent) : Consent :=
  { description := fields.description <|> cur.description
    datatype := fields.datatype <|> cur.datatype
    status :=
      if _isValidStatus (some (fields.status.getD "")) then fields.status.getD ""
      else cur.status
    expiry_date :=
      match fields.expiry_date with
      | .valid t => some t
      | _ => cur.expiry_date
    issuer := cur.issuer
    identifier := env.uuid
    key := cur.key
    context_id := fields.context_id <|> cur.context_id
    _updated := true }

theorem updateConsent_exact_key_eq (env : Env) (prefs : Preferences)
    (contextId purpose : String) (fields : ConsentInput) (ctx : Context) (cur : Consent)
    (hctx : jsFind? prefs contextId = some ctx)
    (hcur : jsFind? ctx.consents purpose = some cur) :
    updateConsent env prefs contextId [(purpose, fields)] =
      .ok (jsInsert prefs contextId
        { ctx with
          consents := jsInsert ctx.consents purpose (updatedConsentRec env fields cur) }) := by
  have hmatch := hasPurposeMatch_of_find? ctx.consents purpose cur hcur
  by_cases hv : _isValidStatus (some (fields.status.getD "")) = true
  · cases hexp : fields.expiry_date with
    | valid t => simp [updateConsent, hctx, hcur, hmatch, hv, hexp, updatedConsentRec]
    | absent => simp [updateConsent, hctx, hcur, hmatch, hv, hexp, updatedConsentRec]
    | invalid => simp [updateConsent, hctx, hcur, hmatch, hv, hexp, updatedConsentRec]
  · cases hexp : fields.expiry_date with
    | valid t => simp [updateConsent, hctx, hcur, hmatch, hv, hexp, updatedConsentRec]
    | absent => simp [updateConsent, hctx, hcur, hmatch, hv, hexp, updatedConsentRec]
    | invalid => simp [updateConsent, hctx, hcur, hmatch, hv, hexp, updatedConsentRec]

/-- C5 amended: when the resolved context holds a consent whose stored
purpose key is exactly (string-)equal to the supplied purpose, that record
is updated in place: invalid incoming status falls back to the current
status, an absent or invalid incoming expiry falls back to the current
expiry, unspecified fields are preserved, _updated is set, the set of
purpose keys is unchanged and every other record is untouched.  When the
match is only case- or format-insensitive (the stored key differs from the
supplied key), the loop body operates on the supplied key instead of the
stored one, so the stored record is not updated and a second entry is
created under the supplied key (or a TypeError is thrown when a fallback
must read the missing record). -/
theorem updateConsent_exact_key_updates_in_place (env : Env) (prefs : Preferences)
    (contextId purpose : String) (fields : ConsentInput) (ctx : Context) (cur : Consent)
    (hctx : jsFind? prefs contextId = some ctx)
    (hcur : jsFind? ctx.consents purpose = some cur) :
    ∃ prefs2, updateConsent env prefs contextId [(purpose, fields)] = .ok prefs2 ∧
    ∃ ctx2, jsFind? prefs2 contextId = some ctx2 ∧
      ctx2.consents.map Prod.fst = ctx.consents.map Prod.fst ∧
      (∀ k, k ≠ purpose → jsFind? ctx2.consents k = jsFind? ctx.consents k) ∧
    ∃ c2, jsFind? ctx2.consents purpose = some c2 ∧
      c2._updated = true ∧
      c2.status =
        (if _isValidStatus (some (fields.status.getD "")) then fields.status.getD ""
         else cur.status) ∧
      c2.expiry_date =
        (match fields.expiry_date with
         | .valid t => some t
         | _ => cur.expiry_date) ∧
      c2.description = (fields.description <|> cur.description) ∧
      c2.datatype = (fields.datatype <|> cur.datatype) ∧
      c2.identifier = env.uuid := by
  have hkey : purpose ∈ ctx.consents.map Prod.fst := by
    have hmem := jsFind?_mem hcur
    exact List.mem_map.mpr ⟨(purpose, cur), hmem, rfl⟩
  refine ⟨jsInsert prefs contextId
      { ctx with consents := jsInsert ctx.consents purpose (updatedConsentRec env fields cur) },
    updateConsent_exact_key_eq env prefs contextId purpose fields ctx cur hctx hcur,
    { ctx with consents := jsInsert ctx.consents purpose (updatedConsentRec env fields cur) },
    jsFind?_jsInsert_self _ _ _,
    jsInsert_keys_of_mem ctx.consents purpose _ hkey,
    fun k hk => jsFind?_jsInsert_ne ctx.consents purpose k _ hk,
    updatedConsentRec env fields cur, jsFind?_jsInsert_self _ _ _,
    rfl, rfl, rfl, rfl, rfl, rfl⟩

def curC5 : Consent :=
  { status := "given", identifier := "uuid-1", context_id := some "c1",
    issuer := some "treasuredata", key := some "myPurpose" }

def prefsC5 : Preferences :=
  [("c1", { context_id := "c1", consents := [("my_purpose", curC5)] })]

/-- C5 counterexample: the stored purpose key my_purpose matches the
supplied key myPurpose only after camel-case normalization; the update is
then written under the supplied key, leaving the stored record untouched
(still status given, flag clear) and creating a second consent entry for
the same normalized purpose. -/
theorem updateConsent_camel_case_creates_second_entry :
    canonicalPurpose "my_purpose" = canonicalPurpose "myPurpose"
    ∧ ∃ prefs2,
        updateConsent envW prefsC5 "c1"
            [("myPurpose", { status := some "refused", expiry_date := .valid 99 })] =
          .ok prefs2 ∧
        ((jsFind? prefs2 "c1").map (fun ctx => ctx.consents.map Prod.fst)) =
          some ["my_purpose", "myPurpose"] ∧
        ((jsFind? prefs2 "c1").bind (fun ctx => jsFind? ctx.consents "my_purpose")) =
          some curC5 ∧
        ((jsFind? prefs2 "c1").bind (fun ctx => jsFind? ctx.consents "myPurpose")).map
          Consent.status = some "refused" := by
  refine ⟨by decide, _, rfl, ?_, ?_, ?_⟩ <;> rfl

theorem updateConsent_exact_key_updates_in_place_witness :
    ∃ prefs2,
      updateConsent envW prefsC5 "c1"
          [("my_purpose", { status := some "refused" })] = .ok prefs2 ∧
    ∃ ctx2, jsFind? prefs2 "c1" = some ctx2 ∧
      ctx2.consents.map Prod.fst = [("my_purpose", curC5)].map Prod.fst ∧
      (∀ k, k ≠ "my_purpose" →
        jsFind? ctx2.consents k = jsFind? [("my_purpose", curC5)] k) ∧
    ∃ c2, jsFind? ctx2.consents "my_purpose" = some c2 ∧
      c2._updated = true ∧
      c2.status =
        (if _isValidStatus (some (Option.getD (some "refused") "")) then
          Option.getD (some "refused") ""
         else curC5.status) ∧
      c2.expiry_date =
        (match ExpiryInput.absent with
         | .valid t => some t
         | _ => curC5.expiry_date) ∧
      c2.description = (none <|> curC5.description) ∧
      c2.datatype = (none <|> curC5.datatype) ∧
      c2.identifier = "uuid-1" :=
  updateConsent_exact_key_updates_in_place envW prefsC5 "c1" "my_purpose"
    { status := some "refused" } _ curC5 rfl rfl

theorem normalizedConsent_expriry_fields (env : Env) (k : String) (c : Consent) :
    (jsFind? (_getNormalizedConsent env k c) "expriry_date" = some JsVal.null
      ∨ ∃ t, jsFind? (_getNormalizedConsent env k c) "expriry_date" = some (JsVal.num t))
    ∧ jsFind? (_getNormalizedConsent env k c) "expiry_date" = none := by
  constructor
  · cases he : c.expiry_date with
    | none => left; simp [_getNormalizedConsent, jsFind?, he]
    | some t =>
      by_cases h0 : t = 0
      · left; simp [_getNormalizedConsent, jsFind?, he, h0]
      · right; exact ⟨t, by simp [_getNormalizedConsent, jsFind?, he, h0]⟩
  · simp [_getNormalizedConsent, jsFind?]

theorem dispatched_mem (env : Env) (prefs : Preferences) (outcomes : List DispatchOutcome) :
    ∀ r ∈ (saveConsents env prefs outcomes).dispatched,
      ∃ kv, kv ∈ allConsentEntries prefs ∧ r = _getNormalizedConsent env kv.1 kv.2 := by
  intro r hr
  simp only [saveConsents, consentPartition_spec] at hr
  split at hr <;>
  · obtain ⟨kv, hkv, hr'⟩ := List.mem_map.mp hr
    exact ⟨kv, List.mem_of_mem_filter hkv, hr'.symm⟩

theorem normalizeConsents_mem (env : Env) (prefs : Preferences) :
    ∀ kr ∈ _normalizeConsents env prefs, ∃ k c, kr.2 = _getNormalizedConsent env k c := by
  have inner : ∀ (l : List (String × Consent))
      (acc : List (String × List (String × JsVal)) × List (String × List (String × JsVal))),
      (∀ kr ∈ acc.1, ∃ k c, kr.2 = _getNormalizedConsent env k c) →
      (∀ kr ∈ acc.2, ∃ k c, kr.2 = _getNormalizedConsent env k c) →
      (∀ kr ∈ (l.foldl
          (fun acc2 kv =>
            if kv.2._updated then
              (jsInsert acc2.1 kv.1 (_getNormalizedConsent env kv.1 kv.2), acc2.2)
            else
              (acc2.1, jsInsert acc2.2 kv.1 (_getNormalizedConsent env kv.1 kv.2)))
          acc).1, ∃ k c, kr.2 = _getNormalizedConsent env k c) ∧
      (∀ kr ∈ (l.foldl
          (fun acc2 kv =>
            if kv.2._updated then
              (jsInsert acc2.1 kv.1 (_getNormalizedConsent env kv.1 kv.2), acc2.2)
            else
              (acc2.1, jsInsert acc2.2 kv.1 (_getNormalizedConsent env kv.1 kv.2)))
          acc).2, ∃ k c, kr.2 = _getNormalizedConsent env k c) := by
    intro l
    induction l with
    | nil => intro acc h1 h2; exact ⟨h1, h2⟩
    | cons hd tl ih =>
      intro acc h1 h2
      cases hu : hd.2._updated with
      | true =>
        simp only [List.foldl_cons, hu, if_true]
        apply ih
        · intro kr hkr
          rcases mem_jsInsert hkr with h | h
          · exact h1 kr h
          · exact ⟨hd.1, hd.2, by rw [h]⟩
        · exact h2
      | false =>
        simp only [List.foldl_cons, hu, if_false]
        apply ih
        · exact h1
        · intro kr hkr
          rcases mem_jsInsert hkr with h | h
          · exact h2 kr h
          · exact ⟨hd.1, hd.2, by rw [h]⟩
  have outer : ∀ (ps : Preferences)
      (acc : List (String × List (String × JsVal)) × List (String × List (String × JsVal))),
      (∀ kr ∈ acc.1, ∃ k c, kr.2 = _getNormalizedConsent env k c) →
      (∀ kr ∈ acc.2, ∃ k c, kr.2 = _getNormalizedConsent env k c) →
      (∀ kr ∈ (ps.foldl
          (fun acc ctxE =>
            ctxE.2.consents.foldl
              (fun acc2 kv =>
                if kv.2._updated then
                  (jsInsert acc2.1 kv.1 (_getNormalizedConsent env kv.1 kv.2), acc2.2)
                else
                  (acc2.1, jsInsert acc2.2 kv.1 (_getNormalizedConsent env kv.1 kv.2)))
              acc)
          acc).1, ∃ k c, kr.2 = _getNormalizedConsent env k c) ∧
      (∀ kr ∈ (ps.foldl
          (fun acc ctxE =>
            ctxE.2.consents.foldl
              (fun acc2 kv =>
                if kv.2._updated then
                  (jsInsert acc2.1 kv.1 (_getNormalizedConsent env kv.1 kv.2), acc2.2)
                else
                  (acc2.1, jsInsert acc2.2 kv.1 (_getNormalizedConsent env kv.1 kv.2)))
              acc)
          acc).2, ∃ k c, kr.2 = _getNormalizedConsent env k c) := by
    intro ps
    induction ps with
    | nil => intro acc h1 h2; exact ⟨h1, h2⟩
    | cons hd tl ih =>
      intro acc h1 h2
      simp only [List.foldl_cons]
      have hstep := inner hd.2.consents acc h1 h2
      exact ih _ hstep.1 hstep.2
  intro kr hkr
  have h := outer prefs ([], [])
    (by intro kr h; simp at h) (by intro kr h; simp at h)
  simp only [_normalizeConsents] at hkr
  split at hkr
  · exact h.2 kr hkr
  · exact h.1 kr hkr

/-- C10: every record saveConsents dispatches to the remote collector, and
every record in the map handed to the success callback, carries its expiry
value under the misspelled field name expriry_date (holding the consent's
expiry number, or null when the expiry is falsy), and carries no field
named expiry_date, because the normalization writes the expiry under the
misspelled key for every consent. -/
theorem saveConsents_records_use_misspelled_expiry_key (env : Env) (prefs : Preferences)
    (outcomes : List DispatchOutcome) :
    (∀ r ∈ (saveConsents env prefs outcomes).dispatched,
      (jsFind? r "expriry_date" = some JsVal.null
        ∨ ∃ t, jsFind? r "expriry_date" = some (JsVal.num t))
      ∧ jsFind? r "expiry_date" = none)
    ∧ (∀ m, (saveConsents env prefs outcomes).onSuccess = some m →
      ∀ kr ∈ m,
        (jsFind? kr.2 "expriry_date" = some JsVal.null
          ∨ ∃ t, jsFind? kr.2 "expriry_date" = some (JsVal.num t))
        ∧ jsFind? kr.2 "expiry_date" = none) := by
  constructor
  · intro r hr
    obtain ⟨kv, _, hr'⟩ := dispatched_mem env prefs outcomes r hr
    rw [hr']
    exact normalizedConsent_expriry_fields env kv.1 kv.2
  · intro m hm kr hkr
    have hm' : m = _normalizeConsents env prefs := by
      simp only [saveConsents] at hm
      split at hm
      · exact (Option.some.inj hm).symm
      · cases hm
    rw [hm'] at hkr
    obtain ⟨k, c, hkr'⟩ := normalizeConsents_mem env prefs kr hkr
    rw [hkr']
    exact normalizedConsent_expriry_fields env k c

theorem saveConsents_records_use_misspelled_expiry_key_witness :
    (jsFind? (_getNormalizedConsent envW "p1" cUpd) "expriry_date" = some JsVal.null
      ∨ ∃ t, jsFind? (_getNormalizedConsent envW "p1" cUpd) "expriry_date" =
          some (JsVal.num t))
    ∧ jsFind? (_getNormalizedConsent envW "p1" cUpd) "expiry_date" = none :=
  (saveConsents_records_use_misspelled_expiry_key envW prefsW []).1
    (_getNormalizedConsent envW "p1" cUpd) (by decide)

theorem jsFind?_mapSnd {α β : Type} (f : α → β) (l : List (String × α)) (k : String) :
    jsFind? (l.map (fun kv => (kv.1, f kv.2))) k = (jsFind? l k).map f := by
  induction l with
  | nil => rfl
  | cons hd tl ih =>
    by_cases h : hd.1 = k
    · simp [jsFind?, h]
    · simp [jsFind?, h, ih]

theorem jsFind?_updateExpired (now : Int) (prefs : Preferences) (cid : String) :
    jsFind? (_updateExpiredConsents now prefs).1 cid =
      (jsFind? prefs cid).map (fun ctx =>
        { ctx with
          consents := ctx.consents.map (fun kv => (kv.1, expireConsent now kv.2)) }) := by
  induction prefs with
  | nil => rfl
  | cons hd tl ih =>
    by_cases h : hd.1 = cid
    · simp [_updateExpiredConsents, jsFind?, h]
    · simp only [_updateExpiredConsents, List.map_cons, jsFind?, h, if_false]
      simpa [_updateExpiredConsents] using ih

theorem consentView_mem_getConsents (env : Env) (prefs : Preferences) (cid : String)
    (ctx : Context) (k : String) (c : Consent)
    (hctx : (cid, ctx) ∈ prefs) (hc : (k, c) ∈ ctx.consents) :
    consentView env ctx k c ∈ getConsents env prefs := by
  have aux : ∀ (ps : Preferences) (acc : List GcView),
      ps.foldl
        (fun acc ctxE =>
          acc ++ ctxE.2.consents.map (fun kv => consentView env ctxE.2 kv.1 kv.2))
        acc
      = acc ++ ps.foldr
          (fun ctxE acc =>
            ctxE.2.consents.map (fun kv => consentView env ctxE.2 kv.1 kv.2) ++ acc)
          [] := by
    intro ps
    induction ps with
    | nil => intro acc; simp
    | cons hd tl ih => intro acc; simp [ih, List.append_assoc]
  have hform : getConsents env prefs =
      prefs.foldr
        (fun ctxE acc =>
          ctxE.2.consents.map (fun kv => consentView env ctxE.2 kv.1 kv.2) ++ acc)
        [] := by
    simpa [getConsents] using aux prefs []
  rw [hform]
  clear aux hform
  induction prefs with
  | nil => simp at hctx
  | cons hd tl ih =>
    rcases List.mem_cons.mp hctx with h | h
    · subst h
      simp only [List.foldr_cons]
      exact List.mem_append_left _
        (List.mem_map.mpr ⟨(k, c), hc, rfl⟩)
    · simp only [List.foldr_cons]
      exact List.mem_append_right _ (ih h)

def cZeroExpiry : Consent :=
  { status := "given", expiry_date := some 0, identifier := "uuid-1",
    context_id := some "c1", issuer := some "treasuredata" }

def prefsC9 : Preferences :=
  [("c1", { context_id := "c1", consents := [("marketing", cZeroExpiry)] })]

/-- C9 counterexample: a consent with status given and a stored expiry
instant of 0 — strictly before now = 5 — is not flipped by the
configure-time reconciler, and no persist-and-sync fires, because the
expiry test guards the comparison with a bare truthiness test and the
number 0 is falsy; the claim's condition (expiry_date strictly before
now) is therefore not what the code implements. -/
theorem configure_zero_expiry_counterexample :
    (0 : Int) < 5
    ∧ ((jsFind? (configure envW 5 prefsC9).prefs "c1").bind
        (fun ctx => jsFind? ctx.consents "marketing")).map Consent.status = some "given"
    ∧ (configure envW 5 prefsC9).didSync = false := by
  refine ⟨by decide, ?_, ?_⟩ <;> rfl

/-- C9 amended: at configure time the expiry reconciler runs once,
synchronously: every consent across every context whose status is given
and whose expiry_date is present, nonzero (a zero instant is falsy in the
code's truthiness guard and is skipped) and strictly before now has its
status set to expired and its _updated flag set; when at least one record
changed, the silent persist-and-sync fires (its outcomes are discarded by
construction); every such consent appears in the getExpiredConsents
snapshot handed once to the expired-consents callback. -/
theorem configure_expires_past_consents (env : Env) (now : Int) (prefs : Preferences)
    (cid k : String) (ctx : Context) (c : Consent) (t : Int)
    (hctx : jsFind? prefs cid = some ctx) (hc : jsFind? ctx.consents k = some c)
    (hs : c.status = "given") (he : c.expiry_date = some t) (h0 : t ≠ 0) (hlt : t < now) :
    (∃ ctx2, jsFind? (configure env now prefs).prefs cid = some ctx2 ∧
      ∃ c2, jsFind? ctx2.consents k = some c2 ∧
        c2.status = "expired" ∧ c2._updated = true)
    ∧ (configure env now prefs).didSync = true
    ∧ (∃ v, v ∈ (configure env now prefs).expiredCallbackArg ∧
        v.purpose = k ∧ v.status = "expired") := by
  have hexp : _isExpired now c.status c.expiry_date = true := by
    simp [_isExpired, hs, he, h0, hlt]
  have hflip : expireConsent now c = { c with status := "expired", _updated := true } := by
    simp [expireConsent, hexp]
  have hprefs : (configure env now prefs).prefs = (_updateExpiredConsents now prefs).1 := rfl
  have hctx2 : jsFind? (configure env now prefs).prefs cid =
      some { ctx with
        consents := ctx.consents.map (fun kv => (kv.1, expireConsent now kv.2)) } := by
    rw [hprefs, jsFind?_updateExpired, hctx]
    rfl
  have hc2 : jsFind?
      ({ ctx with
         consents := ctx.consents.map (fun kv => (kv.1, expireConsent now kv.2)) } :
        Context).consents k = some (expireConsent now c) := by
    show jsFind? (ctx.consents.map (fun kv => (kv.1, expireConsent now kv.2))) k = _
    rw [jsFind?_mapSnd, hc]
    rfl
  refine ⟨⟨_, hctx2, expireConsent now c, hc2, by simp [hflip], by simp [hflip]⟩, ?_, ?_⟩
  · show (_updateExpiredConsents now prefs).2 = true
    simp only [_updateExpiredConsents, List.any_eq_true]
    refine ⟨(cid, ctx), jsFind?_mem hctx, ?_⟩
    simp only [List.any_eq_true]
    exact ⟨(k, c), jsFind?_mem hc, hexp⟩
  · refine ⟨consentView env
        { ctx with
          consents := ctx.consents.map (fun kv => (kv.1, expireConsent now kv.2)) }
        k (expireConsent now c), ?_, rfl, by simp [consentView, hflip]⟩
    show _ ∈ getExpiredConsents env now (_updateExpiredConsents now prefs).1
    apply List.mem_filter.mpr
    constructor
    · apply consentView_mem_getConsents env _ cid _ k _
      · exact jsFind?_mem hctx2
      · exact jsFind?_mem hc2
    · simp [consentView, hflip]

def cPastC9 : Consent :=
  { status := "given", expiry_date := some 3, identifier := "uuid-1",
    context_id := some "c1" }

def prefsC9w : Preferences :=
  [("c1", { context_id := "c1", consents := [("marketing", cPastC9)] })]

theorem configure_expires_past_consents_witness :
    (∃ ctx2, jsFind? (configure envW 5 prefsC9w).prefs "c1" = some ctx2 ∧
      ∃ c2, jsFind? ctx2.consents "marketing" = some c2 ∧
        c2.status = "expired" ∧ c2._updated = true)
    ∧ (configure envW 5 prefsC9w).didSync = true
    ∧ (∃ v, v ∈ (configure envW 5 prefsC9w).expiredCallbackArg ∧
        v.purpose = "marketing" ∧ v.status = "expired") :=
  configure_expires_past_consents envW 5 prefsC9w "c1" "marketing"
    { context_id := "c1", consents := [("marketing", cPastC9)] } cPastC9 3
    rfl rfl rfl rfl (by decide) (by decide)

end ConsentManager
